import Mathlib

/-!
Shallow embedding of `core/lib/zksync_core/src/consensus/storage.rs`:
the Postgres-backed consensus storage bridge (`Store`) implementing
`PersistentBlockStore`, `ReplicaStore` and `PayloadManager`, plus its
genesis bootstrap and fetcher-cursor forwarding.

The relational log is modelled as an explicit `Log` state; every storage
operation is translated as a function from the log (and its other inputs)
to a result paired with the resulting log, mirroring the source's control
flow.  Asynchronous polling loops are embedded as fuel-indexed recursions
over a time-indexed family of log states, and the concurrent certificate
persistence path additionally as a small-step event system.
-/

namespace ConsensusStorage

/-- The decoded domain payload of one miniblock
(`zksync_dal::consensus_dal::Payload`).  Field list taken from the
`FetchedBlock` construction in `Store::store_next_block`. -/
structure Payload where
  l1_batch_number : Nat
  last_in_batch : Bool
  protocol_version : Nat
  timestamp : Nat
  hash : Nat
  l1_gas_price : Nat
  l2_fair_gas_price : Nat
  virtual_blocks : Nat
  operator_addr : Nat
  transactions : List Nat
deriving DecidableEq

/-- Modelled from the spec: the engine's wire payload format
(`validator::Payload`), produced by `Payload::encode` and consumed by
`Payload::decode` (protobuf codec, not part of the sources under `src/`).
A wire value is either a well-formed encoding of a domain payload or a
malformed byte string on which decoding fails. -/
inductive WirePayload where
  | valid (p : Payload) : WirePayload
  | malformed (bytes : List Nat) : WirePayload
deriving DecidableEq

/-- Errors of `ctx::Result`: a distinguished cancellation, or an internal
(`anyhow`) error carrying a context message; the `verify` mismatch error
is kept as its own constructor carrying both decoded payloads, modelling
the `anyhow!("unexpected payload: got .. want ..")` message that embeds
the debug renderings of both. -/
inductive Err where
  | canceled : Err
  | internal (msg : String) : Err
  | mismatch (got want : Payload) : Err
deriving DecidableEq

/-- Modelled from the spec: `Payload::encode` (wire serialization). -/
def Payload.encode (p : Payload) : WirePayload := .valid p

/-- Modelled from the spec: `Payload::decode` / `consensus::Payload::decode`
(wire deserialization, failing on malformed input). -/
def WirePayload.decode : WirePayload → Except Err Payload
  | .valid p => .ok p
  | .malformed _ => .error (.internal "failed deserializing payload")

/-- A quorum certificate (`validator::CommitQC`): an attestation that the
validator set committed to a given payload at a given block number. -/
structure CommitQC where
  blockNumber : Nat
  signers : List Nat
  payloadWire : WirePayload
deriving DecidableEq

/-- `zksync_consensus_storage::BlockStoreState`: the certified range, as
the pair of first and last stored certificates. -/
structure BlockStoreState where
  first : CommitQC
  last : CommitQC
deriving DecidableEq

/-- `validator::FinalBlock`: a certified block, as stored payload plus
justification; `block.header().number` is the number the certificate
attests to. -/
structure FinalBlock where
  payload : WirePayload
  justification : CommitQC
deriving DecidableEq

/-- `block.header().number`. -/
def FinalBlock.number (b : FinalBlock) : Nat := b.justification.blockNumber

/-- `zksync_consensus_storage::ReplicaState`: an opaque voting-state blob. -/
structure ReplicaState where
  blob : List Nat
deriving DecidableEq

/-- The shared relational log (the Postgres database), the single source
of truth: the execution pipeline's sealed-miniblock watermark and payload
table, the consensus certificate table (keyed by block number; one
operator address in scope), and the single replica-state row. -/
structure Log where
  sealed : Nat
  payloads : List (Nat × Payload)
  certs : List (Nat × CommitQC)
  replica : Option ReplicaState
deriving DecidableEq

/-- `CtxStorage::last_miniblock_number` (reads the sealed watermark). -/
def Log.last_miniblock_number (l : Log) : Nat := l.sealed

/-- Modelled from the spec: `consensus_dal().block_payload(number, ..)` —
the payload the execution pipeline committed for a miniblock number, if
any. -/
def Log.payloadOf (l : Log) (number : Nat) : Option Payload :=
  l.payloads.lookup number

/-- Modelled from the spec: `consensus_dal().certificate(number)` — the
stored certificate keyed by a block number, if any. -/
def Log.certificate (l : Log) (number : Nat) : Option CommitQC :=
  l.certs.lookup number

/-- Entry with the smallest key of an association list. -/
def minKeyEntry : List (Nat × CommitQC) → Option (Nat × CommitQC)
  | [] => none
  | e :: es =>
    some (match minKeyEntry es with
      | none => e
      | some f => if e.1 ≤ f.1 then e else f)

/-- Entry with the largest key of an association list. -/
def maxKeyEntry : List (Nat × CommitQC) → Option (Nat × CommitQC)
  | [] => none
  | e :: es =>
    some (match maxKeyEntry es with
      | none => e
      | some f => if f.1 ≤ e.1 then e else f)

/-- Modelled from the spec: `consensus_dal().first_certificate()` — the
stored certificate with the smallest block number. -/
def Log.first_certificate (l : Log) : Option CommitQC :=
  (minKeyEntry l.certs).map Prod.snd

/-- Modelled from the spec: `consensus_dal().last_certificate()` — the
stored certificate with the largest block number. -/
def Log.last_certificate (l : Log) : Option CommitQC :=
  (maxKeyEntry l.certs).map Prod.snd

/-- Modelled from the spec: `consensus_dal().insert_certificate(..)` —
persists a certificate keyed by its block number (and the operator
address, constant here). -/
def Log.insert_certificate (l : Log) (cert : CommitQC) : Log :=
  { l with certs := (cert.blockNumber, cert) :: l.certs }

namespace Store

/-- The branch structure of `PersistentBlockStore::state` on the results
of the two certificate reads: no first certificate means "no state"; a
first certificate without a readable last certificate is the fatal
`context("genesis block disappeared from db")` error; otherwise the pair
is returned. -/
def stateOfReads : Option CommitQC → Option CommitQC → Except Err (Option BlockStoreState)
  | none, _ => .ok none
  | some _, none => .error (.internal "genesis block disappeared from db")
  | some first, some last => .ok (some { first := first, last := last })

/-- `PersistentBlockStore::state for Store`: reads the first and last
stored certificates and reports the certified range.  Performs no
writes, so the log is returned unchanged. -/
def state (l : Log) : Except Err (Option BlockStoreState) × Log :=
  (stateOfReads l.first_certificate l.last_certificate, l)

/-- `PersistentBlockStore::block for Store`: looks up the certificate for
`number`; absent certificate is the valid empty result; a certificate
whose miniblock payload is missing is the fatal
`context("miniblock disappeared from storage")` error.  Performs no
writes. -/
def block (l : Log) (number : Nat) : Except Err (Option FinalBlock) × Log :=
  match l.certificate number with
  | none => (.ok none, l)
  | some justification =>
    match l.payloadOf number with
    | none => (.error (.internal "miniblock disappeared from storage"), l)
    | some payload =>
      (.ok (some { payload := payload.encode, justification := justification }), l)

/-- `ReplicaStore::state for Store`: returns the persisted replica-state
blob, or the empty result if none was ever written. -/
def replica_state (l : Log) : Except Err (Option ReplicaState) × Log :=
  (.ok l.replica, l)

/-- `ReplicaStore::set_state for Store`: overwrites the single persisted
replica-state row wholesale. -/
def set_state (l : Log) (s : ReplicaState) : Except Err Unit × Log :=
  (.ok (), { l with replica := some s })

/-- Modelled from the spec:
`zksync_consensus_bft::testonly::make_genesis(keys, payload, number)` —
constructs the genesis block and its justification (a certificate over
the given payload at the given number, signed by the configured validator
key set); only the justification is used by the caller. -/
def make_genesis (keys : List Nat) (payload : WirePayload) (number : Nat) : CommitQC :=
  { blockNumber := number, signers := keys, payloadWire := payload }

/-- `Store::try_init_genesis`: reads the last sealed miniblock number
outside the transaction, then inside one atomic transaction checks for an
existing first certificate (idempotent no-op when present), otherwise
reads that miniblock's payload, builds the genesis certificate from the
validator key and that payload, inserts it and commits.  A failure before
`commit` discards the transaction, leaving the log unchanged. -/
def try_init_genesis (l : Log) (validator_key : Nat) : Except Err Unit × Log :=
  let number := l.last_miniblock_number
  if (l.first_certificate).isSome then
    (.ok (), l)
  else
    match l.payloadOf number with
    | none => (.error (.internal "payload()"), l)
    | some p =>
      let genesis := make_genesis [validator_key] p.encode number
      (.ok (), l.insert_certificate genesis)

/-- The fixed interval, in milliseconds, of both polling loops
(`POLL_INTERVAL` in `store_next_block` and `propose`). -/
def POLL_INTERVAL_MS : Nat := 50

/-- The `with_context(.. is missing)` error `propose` fails with when the
parent certificate is absent. -/
def missing_parent_err (block_number : Nat) : Err :=
  .internal ("parent of block " ++ toString block_number ++ " is missing")

/-- The body of `propose`'s polling loop: at each tick it re-acquires a
connection, reads the payload for `block_number` from the current log
state, returns it encoded when present, and otherwise sleeps
`POLL_INTERVAL` and retries.  `polls t` is the log state observed by the
poll at tick `t`; the recursion is fuel-indexed, `.ok none` meaning the
loop is still polling when the fuel runs out. -/
def propose_loop (polls : Nat → Log) (block_number : Nat) :
    Nat → Except Err (Option WirePayload)
  | 0 => .ok none
  | fuel + 1 =>
    match (polls 0).payloadOf block_number with
    | some p => .ok (some p.encode)
    | none => propose_loop (fun t => polls (t + 1)) block_number fuel

/-- `PayloadManager::propose for Store`: first looks up the certificate
for `block_number - 1` on the initially accessed log `l0`, failing with
the missing-parent error when absent (before any polling); otherwise
polls for the payload. -/
def propose (l0 : Log) (polls : Nat → Log) (block_number : Nat) (fuel : Nat) :
    Except Err (Option WirePayload) :=
  match l0.certificate (block_number - 1) with
  | none => .error (missing_parent_err block_number)
  | some _ => propose_loop polls block_number fuel

/-- `PayloadManager::verify for Store`: computes the would-be proposal
via `propose`, decodes both it and the candidate into the domain
representation, succeeds iff they are equal and otherwise fails with the
mismatch error carrying both decoded payloads.  `.ok none` means the
inner `propose` is still polling. -/
def verify (l0 : Log) (polls : Nat → Log) (block_number : Nat) (fuel : Nat)
    (payload : WirePayload) : Except Err (Option Unit) :=
  match propose l0 polls block_number fuel with
  | .error e => .error e
  | .ok none => .ok none
  | .ok (some want) =>
    match want.decode with
    | .error e => .error e
    | .ok wantDec =>
      match payload.decode with
      | .error e => .error e
      | .ok got =>
        if got = wantDec then .ok (some ()) else .error (.mismatch got wantDec)

/-- Single-snapshot forms of `propose` and `verify` used for the
frame property: both only read the log, so it is returned unchanged. -/
def propose_step (l : Log) (block_number : Nat) :
    Except Err (Option WirePayload) × Log :=
  (propose l (fun _ => l) block_number 1, l)

/-- Single-snapshot `verify` (see `propose_step`). -/
def verify_step (l : Log) (block_number : Nat) (payload : WirePayload) :
    Except Err (Option Unit) × Log :=
  (verify l (fun _ => l) block_number 1 payload, l)

end Store

/-- `crate::sync_layer::fetcher::FetchedBlock` as constructed in
`store_next_block` from the decoded payload. -/
structure FetchedBlock where
  number : Nat
  l1_batch_number : Nat
  last_in_batch : Bool
  protocol_version : Nat
  timestamp : Nat
  reference_hash : Option Nat
  l1_gas_price : Nat
  l2_fair_gas_price : Nat
  virtual_blocks : Nat
  operator_addr : Nat
  transactions : List Nat
deriving DecidableEq

/-- The `FetchedBlock { .. }` literal of `store_next_block`. -/
def FetchedBlock.ofPayload (number : Nat) (p : Payload) : FetchedBlock :=
  { number := number
    l1_batch_number := p.l1_batch_number
    last_in_batch := p.last_in_batch
    protocol_version := p.protocol_version
    timestamp := p.timestamp
    reference_hash := some p.hash
    l1_gas_price := p.l1_gas_price
    l2_fair_gas_price := p.l2_fair_gas_price
    virtual_blocks := p.virtual_blocks
    operator_addr := p.operator_addr
    transactions := p.transactions }

/-- `crate::sync_layer::fetcher::FetcherCursor`: the next execution-layer
miniblock number this node's follower pipeline expects, and the batch it
belongs to. -/
structure FetcherCursor where
  next_miniblock : Nat
  l1_batch : Nat
deriving DecidableEq

/-- The block-construction action vocabulary pushed to the Action Queue. -/
inductive SyncAction where
  | openBatch (batch : Nat) (timestamp : Nat) : SyncAction
  | miniblock (b : FetchedBlock) : SyncAction
  | sealBatch (batch : Nat) : SyncAction
deriving DecidableEq

/-- Modelled from the spec: `FetcherCursor::advance(block)` — translates
the consensus-level payload fields into the execution pipeline's
construction actions (opening its batch when new, constructing the
miniblock, sealing the batch when it is the last block in it) and
advances the cursor past the block's number. -/
def FetcherCursor.advance (c : FetcherCursor) (b : FetchedBlock) :
    List SyncAction × FetcherCursor :=
  let acts :=
    (if c.l1_batch < b.l1_batch_number then [SyncAction.openBatch b.l1_batch_number b.timestamp]
     else [])
    ++ [SyncAction.miniblock b]
    ++ (if b.last_in_batch then [SyncAction.sealBatch b.l1_batch_number] else [])
  (acts,
   { next_miniblock := b.number + 1
     l1_batch := if b.last_in_batch then b.l1_batch_number + 1 else b.l1_batch_number })

namespace Store

/-- The forwarding half of `store_next_block` (active once a cursor is
installed): converts `block.header().number` to a `MiniblockNumber`
(failing on `u32` overflow), decodes the payload (failing on a malformed
one), and if the number is at or beyond the cursor's expected next
miniblock, advances the cursor and pushes the resulting actions; blocks
behind the cursor are silently skipped.  Returns the updated cursor and
the pushed action group `(number, actions)`, when one was pushed. -/
def store_forward (c : FetcherCursor) (b : FinalBlock) :
    Except Err (FetcherCursor × Option (Nat × List SyncAction)) :=
  if b.number < 2 ^ 32 then
    match b.payload.decode with
    | .error _ => .error (.internal "Failed deserializing block payload")
    | .ok p =>
      if c.next_miniblock ≤ b.number then
        let (acts, cNext) := c.advance (FetchedBlock.ofPayload b.number p)
        .ok (cNext, some (b.number, acts))
      else .ok (c, none)
  else .error (.internal "Integer overflow converting block number")

/-- A sequence of `store_next_block` calls seen by the forwarding half:
each call either errors (pushing nothing and leaving the cursor
untouched) or updates the cursor, accumulating the pushed action groups
in call order. -/
def store_forward_all : FetcherCursor → List FinalBlock →
    FetcherCursor × List (Nat × List SyncAction)
  | c, [] => (c, [])
  | c, b :: bs =>
    match store_forward c b with
    | .error _ => store_forward_all c bs
    | .ok (cNext, none) => store_forward_all cNext bs
    | .ok (cNext, some g) =>
      let r := store_forward_all cNext bs
      (r.1, g :: r.2)

/-- The certificate-persistence half of `store_next_block`: at each tick
it re-acquires a connection (failing with the distinguished cancellation
error when the context is canceled), reads the last sealed miniblock
number, and inserts the certificate once that number has reached the
block's number — an atomic statement that either persists the row or
fails leaving nothing written; otherwise it sleeps `POLL_INTERVAL` and
retries.  `sealedAt t` is the watermark read at tick `t`, `cancelAt t`
whether cancellation has triggered by tick `t`, and `insertOk` whether
the insert statement succeeds.  Returns the call's outcome (`.ok none`
when still polling at fuel exhaustion) and the list of certificate rows
this call wrote. -/
def store_persist_loop (sealedAt : Nat → Nat) (cancelAt : Nat → Bool)
    (insertOk : Bool) (b : FinalBlock) :
    Nat → Except Err (Option Unit) × List CommitQC
  | 0 => (.ok none, [])
  | fuel + 1 =>
    if cancelAt 0 then (.error .canceled, [])
    else if b.number ≤ sealedAt 0 then
      if insertOk then (.ok (some ()), [b.justification])
      else (.error (.internal "insert_certificate()"), [])
    else
      store_persist_loop (fun t => sealedAt (t + 1)) (fun t => cancelAt (t + 1))
        insertOk b fuel

end Store

/-- One atomic action in the concurrent small-step model of
`store_next_block`'s persistence path racing the execution pipeline:
the pipeline advances the sealed watermark, or one call polls the
watermark, or one call (whose latest poll satisfied its guard) runs the
insert statement. -/
inductive TraceEvent where
  | sealTo (k : Nat) : TraceEvent
  | poll (call : Nat) : TraceEvent
  | insert (call : Nat) (n : Nat) : TraceEvent
deriving DecidableEq

/-- Global state of the small-step model: the execution watermark, each
in-flight call's most recently polled value (latest first), and the
certificate rows written so far. -/
structure SysState where
  sealed : Nat
  observed : List (Nat × Nat)
  inserted : List (Nat × Nat)
deriving DecidableEq

/-- The step relation.  `sealTo k` is execution appending (the watermark
never moves backwards); `poll c` is call `c`'s
`last_miniblock_number` read, recording the current watermark; `insert c
n` is call `c` persisting the certificate for block `n`, enabled only
when `c`'s most recent poll returned a value `≥ n` — exactly the guard
under which the source's loop body reaches `insert_certificate`. -/
def step (s : SysState) : TraceEvent → Option SysState
  | .sealTo k => if s.sealed ≤ k then some { s with sealed := k } else none
  | .poll c => some { s with observed := (c, s.sealed) :: s.observed }
  | .insert c n =>
    match s.observed.lookup c with
    | none => none
    | some v => if n ≤ v then some { s with inserted := (c, n) :: s.inserted } else none

/-- Runs a trace of events from a state, failing when an event is not
enabled. -/
def run (s : SysState) : List TraceEvent → Option SysState
  | [] => some s
  | e :: tr =>
    match step s e with
    | none => none
    | some sNext => run sNext tr

/-- Every value a call has polled is at most the current watermark. -/
def Inv (s : SysState) : Prop :=
  ∀ p ∈ s.observed, p.2 ≤ s.sealed

instance (s : SysState) : Decidable (Inv s) := by
  unfold Inv; infer_instance

/-! ### Sample data for witnesses -/

/-- A concrete domain payload. -/
def samplePayload : Payload :=
  { l1_batch_number := 1, last_in_batch := true, protocol_version := 25,
    timestamp := 100, hash := 7, l1_gas_price := 2, l2_fair_gas_price := 3,
    virtual_blocks := 1, operator_addr := 9, transactions := [4, 5] }

/-- `samplePayload` with one field mutated. -/
def samplePayloadMut : Payload := { samplePayload with timestamp := 101 }

/-- A concrete certificate for block `n`. -/
def sampleQC (n : Nat) : CommitQC :=
  { blockNumber := n, signers := [1], payloadWire := samplePayload.encode }

/-- A concrete log: miniblocks 0 and 1 sealed with payloads, certificate
stored for block 0 only, no replica state. -/
def sampleLog : Log :=
  { sealed := 1, payloads := [(0, samplePayload), (1, samplePayload)],
    certs := [(0, sampleQC 0)], replica := none }

/-- The empty log. -/
def emptyLog : Log := { sealed := 0, payloads := [], certs := [], replica := none }

/-- A constant poll trace sitting at `sampleLog`. -/
def samplePolls : Nat → Log := fun _ => sampleLog

/-! ### Helper lemmas -/

lemma WirePayload.decode_encode (p : Payload) : (Payload.encode p).decode = .ok p := rfl

lemma minKeyEntry_eq_none_iff (cs : List (Nat × CommitQC)) :
    minKeyEntry cs = none ↔ cs = [] := by
  cases cs <;> simp [minKeyEntry]

lemma maxKeyEntry_eq_none_iff (cs : List (Nat × CommitQC)) :
    maxKeyEntry cs = none ↔ cs = [] := by
  cases cs <;> simp [maxKeyEntry]

lemma first_certificate_eq_none_iff (l : Log) :
    l.first_certificate = none ↔ l.certs = [] := by
  rw [← minKeyEntry_eq_none_iff]
  simp [Log.first_certificate]

lemma last_certificate_isSome_of_first (l : Log) (f : CommitQC)
    (h : l.first_certificate = some f) : (l.last_certificate).isSome := by
  rcases hc : l.certs with _ | ⟨e, es⟩
  · have hnone := (first_certificate_eq_none_iff l).mpr hc
    rw [hnone] at h
    cases h
  · simp [Log.last_certificate, hc, maxKeyEntry]

/-! ### C9: replica store semantics -/

/-- C9: `ReplicaStore` for `Store` — `state()` on a log where no replica
state was ever written returns the empty result; after `set_state(blob)`
a `state()` call returns exactly that blob; and a later `set_state`
overwrites wholesale, so the result does not depend on the earlier blob
(last write wins, no merging). -/
theorem replica_store_spec :
    (∀ l : Log, l.replica = none → Store.replica_state l = (.ok none, l)) ∧
    (∀ (l : Log) (b : ReplicaState),
        Store.replica_state (Store.set_state l b).2
          = (.ok (some b), (Store.set_state l b).2)) ∧
    (∀ (l : Log) (b1 b2 : ReplicaState),
        (Store.set_state (Store.set_state l b1).2 b2).2 = (Store.set_state l b2).2) := by
  refine ⟨fun l h => ?_, fun l b => rfl, fun l b1 b2 => rfl⟩
  simp [Store.replica_state, h]

/-- Witness for C9 at a concrete log and blobs. -/
theorem replica_store_spec_witness :
    Store.replica_state emptyLog = (.ok none, emptyLog) ∧
    Store.replica_state (Store.set_state emptyLog ⟨[3]⟩).2
      = (.ok (some ⟨[3]⟩), (Store.set_state emptyLog ⟨[3]⟩).2) ∧
    (Store.set_state (Store.set_state emptyLog ⟨[1]⟩).2 ⟨[3]⟩).2
      = (Store.set_state emptyLog ⟨[3]⟩).2 :=
  ⟨replica_store_spec.1 emptyLog rfl,
   replica_store_spec.2.1 emptyLog ⟨[3]⟩,
   replica_store_spec.2.2 emptyLog ⟨[1]⟩ ⟨[3]⟩⟩

/-! ### C5: block(n) semantics -/

/-- C5: `PersistentBlockStore::block` — when no certificate for `n` is
stored it returns the valid empty result (not an error); when both the
certificate and the payload exist it returns that payload (encoded)
paired with that certificate; when the certificate exists but the
payload is missing it fails with the fatal internal-consistency error. -/
theorem block_spec (l : Log) (n : Nat) :
    (l.certificate n = none → Store.block l n = (.ok none, l)) ∧
    (∀ c p, l.certificate n = some c → l.payloadOf n = some p →
        Store.block l n
          = (.ok (some { payload := p.encode, justification := c }), l)) ∧
    (∀ c, l.certificate n = some c → l.payloadOf n = none →
        Store.block l n = (.error (.internal "miniblock disappeared from storage"), l)) := by
  refine ⟨fun h => ?_, fun c p hc hp => ?_, fun c hc hp => ?_⟩ <;>
    simp [Store.block, *]

/-- Witness for C5: on `sampleLog`, block 0 is stored and returned with
its payload, block 5 is not found. -/
theorem block_spec_witness :
    Store.block sampleLog 0
      = (.ok (some { payload := Payload.encode samplePayload,
                     justification := sampleQC 0 }), sampleLog) ∧
    Store.block sampleLog 5 = (.ok none, sampleLog) :=
  ⟨(block_spec sampleLog 0).2.1 (sampleQC 0) samplePayload (by decide) (by decide),
   (block_spec sampleLog 5).1 (by decide)⟩

/-! ### C4: state() semantics -/

/-- C4: `PersistentBlockStore::state` — returns the absent result exactly
when no certificate is stored; when first and last certificates exist it
returns the pair of them; a first certificate always comes with a
readable last certificate in a well-formed log (so the range is never
partially populated); and on reads where a first certificate exists but
the last is missing the operation fails with the fatal
internal-consistency error (genesis certificate disappeared), not a
retryable one. -/
theorem state_spec (l : Log) :
    ((Store.state l).1 = .ok none ↔ l.certs = []) ∧
    (∀ f g, l.first_certificate = some f → l.last_certificate = some g →
        Store.state l = (.ok (some { first := f, last := g }), l)) ∧
    (∀ f, l.first_certificate = some f → (l.last_certificate).isSome) ∧
    (∀ f, Store.stateOfReads (some f) none
        = .error (.internal "genesis block disappeared from db")) := by
  refine ⟨?_, fun f g hf hg => ?_, fun f hf => last_certificate_isSome_of_first l f hf,
    fun f => rfl⟩
  · constructor
    · intro h
      rw [← first_certificate_eq_none_iff]
      rcases hf : l.first_certificate with _ | f
      · rfl
      · rcases Option.isSome_iff_exists.mp (last_certificate_isSome_of_first l f hf)
          with ⟨g, hg⟩
        simp [Store.state, Store.stateOfReads, hf, hg] at h
    · intro h
      have hf : l.first_certificate = none := (first_certificate_eq_none_iff l).mpr h
      simp [Store.state, Store.stateOfReads, hf]
  · simp [Store.state, Store.stateOfReads, hf, hg]

/-- Witness for C4: the empty log reports no state; `sampleLog` reports
the range `[cert 0, cert 0]`. -/
theorem state_spec_witness :
    (Store.state emptyLog).1 = .ok none ∧
    Store.state sampleLog
      = (.ok (some { first := sampleQC 0, last := sampleQC 0 }), sampleLog) :=
  ⟨(state_spec emptyLog).1.mpr rfl,
   (state_spec sampleLog).2.1 (sampleQC 0) (sampleQC 0) (by decide) (by decide)⟩

/-! ### C3: genesis idempotence -/

/-- C3: `Store::try_init_genesis` — when a first certificate already
exists the run observes it inside its transaction and returns without
touching the log (idempotent no-op); running the bootstrap twice leaves
the same log as running it once; and from a certificate-free log a
successful run stores exactly one certificate, after which the second
run is a successful no-op. -/
theorem genesis_idempotent :
    (∀ (l : Log) (k : Nat) (c : CommitQC), l.first_certificate = some c →
        Store.try_init_genesis l k = (.ok (), l)) ∧
    (∀ (l : Log) (k : Nat),
        (Store.try_init_genesis (Store.try_init_genesis l k).2 k).2
          = (Store.try_init_genesis l k).2) ∧
    (∀ (l : Log) (k : Nat), l.certs = [] → (Store.try_init_genesis l k).1 = .ok () →
        (Store.try_init_genesis l k).2.certs.length = 1 ∧
        Store.try_init_genesis (Store.try_init_genesis l k).2 k
          = (.ok (), (Store.try_init_genesis l k).2)) := by
  have hnoop : ∀ (l : Log) (k : Nat), (l.first_certificate).isSome →
      Store.try_init_genesis l k = (.ok (), l) := by
    intro l k h
    simp [Store.try_init_genesis, h]
  refine ⟨fun l k c hc => hnoop l k (by simp [hc]), fun l k => ?_, fun l k hc hok => ?_⟩
  · rcases hf : (l.first_certificate).isSome with _ | _
    · rcases hp : l.payloadOf l.last_miniblock_number with _ | p
      · have h1 : (Store.try_init_genesis l k).2 = l := by
          simp [Store.try_init_genesis, hf, hp]
        rw [h1, h1]
      · have h1 : (Store.try_init_genesis l k).2
            = l.insert_certificate
                (Store.make_genesis [k] p.encode l.last_miniblock_number) := by
          simp [Store.try_init_genesis, hf, hp]
        have h2 : ((Store.try_init_genesis l k).2.first_certificate).isSome := by
          rw [h1]
          simp [Log.first_certificate, Log.insert_certificate, minKeyEntry]
        rw [hnoop _ k h2]
    · rw [hnoop l k hf, hnoop l k hf]
  · have hf : l.first_certificate = none := (first_certificate_eq_none_iff l).mpr hc
    rcases hp : l.payloadOf l.last_miniblock_number with _ | p
    · exfalso
      simp [Store.try_init_genesis, hf, hp] at hok
    · have h1 : (Store.try_init_genesis l k).2
          = l.insert_certificate
              (Store.make_genesis [k] p.encode l.last_miniblock_number) := by
        simp [Store.try_init_genesis, hf, hp]

      refine ⟨?_, hnoop _ k ?_⟩
      · rw [h1]
        simp [Log.insert_certificate, hc]
      · rw [h1]
        simp [Log.first_certificate, Log.insert_certificate, minKeyEntry]

/-- Witness for C3: bootstrapping a certificate-free one-block log stores
one certificate and the second run is a successful no-op; bootstrapping
`sampleLog` (which already has a certificate) changes nothing. -/
theorem genesis_idempotent_witness :
    ((Store.try_init_genesis { emptyLog with payloads := [(0, samplePayload)] } 1).2.certs.length
        = 1 ∧
      Store.try_init_genesis
          (Store.try_init_genesis { emptyLog with payloads := [(0, samplePayload)] } 1).2 1
        = (.ok (),
           (Store.try_init_genesis { emptyLog with payloads := [(0, samplePayload)] } 1).2)) ∧
    Store.try_init_genesis sampleLog 1 = (.ok (), sampleLog) :=
  ⟨genesis_idempotent.2.2 { emptyLog with payloads := [(0, samplePayload)] } 1 rfl rfl,
   genesis_idempotent.1 sampleLog 1 (sampleQC 0) (by decide)⟩

/-! ### C2: propose/verify consistency -/

/-- C2: when the payload for `n` is available in the execution log and
the parent certificate for `n - 1` is stored, `propose(n)` returns that
payload encoded and `verify(n, propose(n))` succeeds; and every candidate
whose decoded domain representation differs from the decoded local
proposal fails with the mismatch error carrying both decoded payloads. -/
theorem propose_verify_consistent (l : Log) (n : Nat) (p : Payload) (c : CommitQC)
    (hp : l.payloadOf n = some p) (hc : l.certificate (n - 1) = some c) :
    Store.propose l (fun _ => l) n 1 = .ok (some p.encode) ∧
    Store.verify l (fun _ => l) n 1 p.encode = .ok (some ()) ∧
    (∀ cand q, cand.decode = .ok q → q ≠ p →
        Store.verify l (fun _ => l) n 1 cand = .error (.mismatch q p)) := by
  have hprop : Store.propose l (fun _ => l) n 1 = .ok (some p.encode) := by
    simp [Store.propose, hc, Store.propose_loop, hp]
  refine ⟨hprop, ?_, fun cand q hq hne => ?_⟩
  · simp [Store.verify, hprop, WirePayload.decode_encode]
  · simp [Store.verify, hprop, WirePayload.decode_encode, hq, hne]

/-- Witness for C2 at `sampleLog`, block 1: the round trip succeeds and a
mutated payload is rejected with the mismatch error. -/
theorem propose_verify_consistent_witness :
    Store.verify sampleLog samplePolls 1 1 samplePayload.encode = .ok (some ()) ∧
    Store.verify sampleLog samplePolls 1 1 samplePayloadMut.encode
      = .error (.mismatch samplePayloadMut samplePayload) :=
  ⟨(propose_verify_consistent sampleLog 1 samplePayload (sampleQC 0)
      (by decide) (by decide)).2.1,
   (propose_verify_consistent sampleLog 1 samplePayload (sampleQC 0)
      (by decide) (by decide)).2.2 samplePayloadMut.encode samplePayloadMut
      rfl (by decide)⟩

/-! ### C6: propose semantics -/

lemma propose_loop_first_hit (n : Nat) :
    ∀ (t : Nat) (polls : Nat → Log) (fuel : Nat) (p : Payload),
      (∀ u, u < t → (polls u).payloadOf n = none) →
      (polls t).payloadOf n = some p →
      t < fuel →
      Store.propose_loop polls n fuel = .ok (some p.encode) := by
  intro t
  induction t with
  | zero =>
    intro polls fuel p _ hp hfuel
    rcases fuel with _ | f
    · omega
    · simp [Store.propose_loop, hp]
  | succ t ih =>
    intro polls fuel p hnone hp hfuel
    rcases fuel with _ | f
    · omega
    · have h0 : (polls 0).payloadOf n = none := hnone 0 (Nat.succ_pos t)
      simp only [Store.propose_loop, h0]
      exact ih (fun u => polls (u + 1)) f p
        (fun u hu => hnone (u + 1) (Nat.succ_lt_succ hu)) hp (Nat.lt_of_succ_lt_succ hfuel)

/-- C6: `PayloadManager::propose` — when no certificate for `n - 1` is
stored it fails with the missing-parent error regardless of the poll
trace or fuel (so without waiting for a payload); when the parent
certificate is stored it polls until the payload for `n` first appears
and returns it encoded in the wire format; and the polling interval is
the fixed 50 ms. -/
theorem propose_spec :
    (∀ (l0 : Log) (polls : Nat → Log) (n fuel : Nat),
        l0.certificate (n - 1) = none →
        Store.propose l0 polls n fuel = .error (Store.missing_parent_err n)) ∧
    (∀ (l0 : Log) (polls : Nat → Log) (n : Nat) (c : CommitQC) (t fuel : Nat) (p : Payload),
        l0.certificate (n - 1) = some c →
        (∀ u, u < t → (polls u).payloadOf n = none) →
        (polls t).payloadOf n = some p →
        t < fuel →
        Store.propose l0 polls n fuel = .ok (some p.encode)) ∧
    Store.POLL_INTERVAL_MS = 50 := by
  refine ⟨fun l0 polls n fuel h => ?_, fun l0 polls n c t fuel p hc hnone hp hfuel => ?_, rfl⟩
  · simp [Store.propose, h]
  · simp only [Store.propose, hc]
    exact propose_loop_first_hit n t polls fuel p hnone hp hfuel

/-- Witness for C6: on the empty log `propose(10)` fails with the
missing-parent error; on a trace where block 1's payload appears at the
third poll of `sampleLog`'s successor states, `propose(1)` returns it. -/
theorem propose_spec_witness :
    Store.propose emptyLog samplePolls 10 3
      = .error (Store.missing_parent_err 10) ∧
    Store.propose sampleLog
        (fun t => if t < 2 then emptyLog else sampleLog) 1 3
      = .ok (some samplePayload.encode) :=
  ⟨propose_spec.1 emptyLog samplePolls 10 3 rfl,
   propose_spec.2.1 sampleLog (fun t => if t < 2 then emptyLog else sampleLog) 1
      (sampleQC 0) 2 3 samplePayload (by decide)
      (fun u hu => by interval_cases u <;> rfl) (by decide) (by decide)⟩

/-! ### C8: no partial writes on error, distinguishable cancellation -/

/-- C8: the certificate-persistence loop of `store_next_block` — whenever
the call returns an error, it has persisted nothing (no partial writes:
the write list is empty); when cancellation has triggered the call
returns the distinguished cancellation error, which is distinct from any
wrapped internal failure. -/
theorem store_persist_error_spec :
    (∀ (sealedAt : Nat → Nat) (cancelAt : Nat → Bool) (insertOk : Bool)
        (b : FinalBlock) (fuel : Nat) (e : Err),
        (Store.store_persist_loop sealedAt cancelAt insertOk b fuel).1 = .error e →
        (Store.store_persist_loop sealedAt cancelAt insertOk b fuel).2 = []) ∧
    (∀ (sealedAt : Nat → Nat) (cancelAt : Nat → Bool) (insertOk : Bool)
        (b : FinalBlock) (fuel : Nat),
        cancelAt 0 = true → 0 < fuel →
        Store.store_persist_loop sealedAt cancelAt insertOk b fuel
          = (.error .canceled, [])) ∧
    (∀ msg, Err.canceled ≠ Err.internal msg) := by
  refine ⟨fun sealedAt cancelAt insertOk b fuel => ?_,
    fun sealedAt cancelAt insertOk b fuel hcan hfuel => ?_, fun msg h => by cases h⟩
  · induction fuel generalizing sealedAt cancelAt with
    | zero => intro e h; simp [Store.store_persist_loop] at h
    | succ f ih =>
      intro e h
      by_cases hcan : cancelAt 0
      · simp [Store.store_persist_loop, hcan]
      · by_cases hseal : b.number ≤ sealedAt 0
        · by_cases hins : insertOk
          · simp [Store.store_persist_loop, hcan, hseal, hins] at h
          · simp [Store.store_persist_loop, hcan, hseal, hins]
        · simp only [Store.store_persist_loop, hcan, hseal, if_false, if_neg,
            Bool.false_eq_true, not_false_eq_true] at h ⊢
          exact ih _ _ e h
  · rcases fuel with _ | f
    · omega
    · simp [Store.store_persist_loop, hcan]

/-- Witness for C8: a call canceled at its first tick returns the
cancellation error and has written nothing. -/
theorem store_persist_error_spec_witness :
    Store.store_persist_loop (fun _ => 0) (fun _ => true) true
        { payload := samplePayload.encode, justification := sampleQC 3 } 4
      = (.error .canceled, []) ∧
    (Store.store_persist_loop (fun _ => 0) (fun _ => true) true
        { payload := samplePayload.encode, justification := sampleQC 3 } 4).2 = [] :=
  ⟨store_persist_error_spec.2.1 (fun _ => 0) (fun _ => true) true
      { payload := samplePayload.encode, justification := sampleQC 3 } 4 rfl (by decide),
   store_persist_error_spec.1 (fun _ => 0) (fun _ => true) true
      { payload := samplePayload.encode, justification := sampleQC 3 } 4 .canceled
      (by rw [store_persist_error_spec.2.1 (fun _ => 0) (fun _ => true) true
        { payload := samplePayload.encode, justification := sampleQC 3 } 4 rfl (by decide)])⟩

/-! ### C7: cursor monotonicity and duplicate suppression -/

lemma store_forward_ok (c cNext : FetcherCursor) (b : FinalBlock)
    (og : Option (Nat × List SyncAction))
    (h : Store.store_forward c b = .ok (cNext, og)) :
    (og = none ∧ cNext = c ∧ b.number < c.next_miniblock) ∨
    (∃ acts, og = some (b.number, acts) ∧ c.next_miniblock ≤ b.number ∧
        cNext.next_miniblock = b.number + 1) := by
  by_cases hof : b.number < 2 ^ 32
  · rcases hd : b.payload.decode with e | p
    · simp only [Store.store_forward, if_pos hof, hd] at h
      exact Except.noConfusion h
    · by_cases hle : c.next_miniblock ≤ b.number
      · simp only [Store.store_forward, if_pos hof, hd, if_pos hle,
          FetcherCursor.advance, Except.ok.injEq, Prod.mk.injEq] at h
        obtain ⟨h1, h2⟩ := h
        refine Or.inr ⟨_, h2.symm, hle, ?_⟩
        rw [← h1]
        rfl
      · simp only [Store.store_forward, if_pos hof, hd, if_neg hle,
          Except.ok.injEq, Prod.mk.injEq] at h
        exact Or.inl ⟨h.2.symm, h.1.symm, Nat.lt_of_not_le hle⟩
  · simp only [Store.store_forward, if_neg hof] at h
    exact Except.noConfusion h

lemma store_forward_all_inv (bs : List FinalBlock) :
    ∀ c : FetcherCursor,
      c.next_miniblock ≤ (Store.store_forward_all c bs).1.next_miniblock ∧
      (∀ g ∈ (Store.store_forward_all c bs).2,
          c.next_miniblock ≤ g.1 ∧
          g.1 < (Store.store_forward_all c bs).1.next_miniblock) ∧
      List.Pairwise (fun g h => g.1 < h.1) (Store.store_forward_all c bs).2 := by
  induction bs with
  | nil => intro c; exact ⟨Nat.le_refl _, by simp [Store.store_forward_all], by
      simp [Store.store_forward_all]⟩
  | cons b bs ih =>
    intro c
    rcases hf : Store.store_forward c b with e | ⟨cNext, og⟩
    · rw [show Store.store_forward_all c (b :: bs) = Store.store_forward_all c bs
        from by simp [Store.store_forward_all, hf]]
      exact ih c
    · rcases store_forward_ok c cNext b og hf with ⟨hog, hce, _⟩ | ⟨acts, hog, hle, hnext⟩
      · rw [show Store.store_forward_all c (b :: bs) = Store.store_forward_all cNext bs
          from by simp [Store.store_forward_all, hf, hog], hce]
        exact ih c
      · subst hog
        have hrec := ih cNext
        have hred : Store.store_forward_all c (b :: bs)
            = ((Store.store_forward_all cNext bs).1,
               (b.number, acts) :: (Store.store_forward_all cNext bs).2) := by
          simp [Store.store_forward_all, hf]
        rw [hred]
        dsimp only
        have hbn : b.number < cNext.next_miniblock := by omega
        have hmono := hrec.1
        refine ⟨by omega, ?_, ?_⟩
        · intro g hg
          rcases List.mem_cons.mp hg with hg | hg
          · subst hg
            exact ⟨hle, by omega⟩
          · have := hrec.2.1 g hg
            exact ⟨by omega, this.2⟩
        · refine List.pairwise_cons.mpr ⟨?_, hrec.2.2⟩
          intro g hg
          have := (hrec.2.1 g hg).1
          exact Nat.lt_of_lt_of_le hbn this

/-- C7: the forwarding half of `store_next_block` over any sequence of
calls — actions are pushed only for blocks whose number is at or after
the cursor's expected next miniblock; a decodable block strictly behind
the cursor is silently skipped (no error, no actions, cursor untouched);
each block number's action group appears in the pushed stream at most
once; and the cursor's next-expected value never decreases (both per
call and over the whole sequence). -/
theorem cursor_monotone_spec :
    (∀ (c : FetcherCursor) (bs : List FinalBlock),
        c.next_miniblock ≤ (Store.store_forward_all c bs).1.next_miniblock) ∧
    (∀ (c cNext : FetcherCursor) (b : FinalBlock) (og : Option (Nat × List SyncAction)),
        Store.store_forward c b = .ok (cNext, og) →
        c.next_miniblock ≤ cNext.next_miniblock) ∧
    (∀ (c : FetcherCursor) (bs : List FinalBlock) (g : Nat × List SyncAction),
        g ∈ (Store.store_forward_all c bs).2 → c.next_miniblock ≤ g.1) ∧
    (∀ (c : FetcherCursor) (bs : List FinalBlock),
        ((Store.store_forward_all c bs).2.map Prod.fst).Nodup) ∧
    (∀ (c : FetcherCursor) (b : FinalBlock) (p : Payload),
        b.payload.decode = .ok p → b.number < 2 ^ 32 →
        b.number < c.next_miniblock →
        Store.store_forward c b = .ok (c, none)) := by
  refine ⟨fun c bs => (store_forward_all_inv bs c).1,
    fun c cNext b og h => ?_,
    fun c bs g hg => ((store_forward_all_inv bs c).2.1 g hg).1,
    fun c bs => ?_, fun c b p hd hof hlt => ?_⟩
  · rcases store_forward_ok c cNext b og h with ⟨_, hce, _⟩ | ⟨acts, _, hle, hnext⟩
    · subst hce; exact Nat.le_refl _
    · omega
  · have hpw := (store_forward_all_inv bs c).2.2
    exact (List.pairwise_map.mpr hpw).imp fun h => Nat.ne_of_lt h
  · have hnle : ¬ c.next_miniblock ≤ b.number := Nat.not_le_of_lt hlt
    simp only [Store.store_forward, if_pos hof, hd, if_neg hnle]

/-- Witness for C7: a concrete replay sequence (blocks 1, 2, 2 again,
then 0) starting from a cursor expecting miniblock 1 pushes each of
blocks 1 and 2 once, skips the replays, and leaves the cursor at 3. -/
theorem cursor_monotone_spec_witness :
    (Store.store_forward_all { next_miniblock := 1, l1_batch := 0 }
        [ { payload := samplePayload.encode, justification := sampleQC 1 },
          { payload := samplePayload.encode, justification := sampleQC 2 },
          { payload := samplePayload.encode, justification := sampleQC 2 },
          { payload := samplePayload.encode, justification := sampleQC 0 } ]).1.next_miniblock
      ≥ 1 ∧
    ((Store.store_forward_all { next_miniblock := 1, l1_batch := 0 }
        [ { payload := samplePayload.encode, justification := sampleQC 1 },
          { payload := samplePayload.encode, justification := sampleQC 2 },
          { payload := samplePayload.encode, justification := sampleQC 2 },
          { payload := samplePayload.encode, justification := sampleQC 0 } ]).2.map
        Prod.fst).Nodup ∧
    Store.store_forward { next_miniblock := 3, l1_batch := 2 }
        { payload := samplePayload.encode, justification := sampleQC 2 }
      = .ok ({ next_miniblock := 3, l1_batch := 2 }, none) :=
  ⟨cursor_monotone_spec.1 { next_miniblock := 1, l1_batch := 0 } _,
   cursor_monotone_spec.2.2.2.1 { next_miniblock := 1, l1_batch := 0 } _,
   cursor_monotone_spec.2.2.2.2 { next_miniblock := 3, l1_batch := 2 }
      { payload := samplePayload.encode, justification := sampleQC 2 } samplePayload
      rfl (by decide) (by decide)⟩

/-! ### C1: certificate never persisted before the data it attests to -/

lemma lookup_mem : ∀ (xs : List (Nat × Nat)) (c v : Nat),
    xs.lookup c = some v → (c, v) ∈ xs := by
  intro xs
  induction xs with
  | nil => intro c v h; cases h
  | cons e es ih =>
    intro c v h
    rcases e with ⟨k, b⟩
    by_cases hk : c = k
    · subst hk
      simp only [List.lookup, beq_self_eq_true] at h
      injection h with h
      subst h
      exact List.mem_cons_self _ _
    · have hbeq : (c == k) = false := beq_eq_false_iff_ne.mpr hk
      simp only [List.lookup, hbeq] at h
      exact List.mem_cons_of_mem _ (ih c v h)

lemma lookup_le_of_inv {s : SysState} (h : Inv s) {c v : Nat}
    (hl : s.observed.lookup c = some v) : v ≤ s.sealed :=
  h (c, v) (lookup_mem s.observed c v hl)

lemma step_inv {s sNext : SysState} {e : TraceEvent}
    (hs : step s e = some sNext) (h : Inv s) : Inv sNext := by
  cases e with
  | sealTo k =>
    simp only [step] at hs
    by_cases hk : s.sealed ≤ k
    · rw [if_pos hk] at hs
      injection hs with hs
      subst hs
      intro p hp
      exact Nat.le_trans (h p hp) hk
    · rw [if_neg hk] at hs; cases hs
  | poll c =>
    simp only [step] at hs
    injection hs with hs
    subst hs
    intro p hp
    rcases List.mem_cons.mp hp with hp | hp
    · subst hp; exact Nat.le_refl _
    · exact h p hp
  | insert c n =>
    rcases hl : s.observed.lookup c with _ | v
    · simp only [step, hl] at hs
      exact Option.noConfusion hs
    · simp only [step, hl] at hs
      by_cases hn : n ≤ v
      · rw [if_pos hn] at hs
        injection hs with hs
        subst hs
        exact h
      · rw [if_neg hn] at hs; cases hs

lemma run_inv : ∀ (tr : List TraceEvent) (s sFin : SysState),
    run s tr = some sFin → Inv s → Inv sFin := by
  intro tr
  induction tr with
  | nil =>
    intro s sFin h hinv
    injection h with h
    subst h
    exact hinv
  | cons e tr ih =>
    intro s sFin h hinv
    unfold run at h
    rcases hs : step s e with _ | sNext <;> rw [hs] at h
    · cases h
    · exact ih sNext sFin h (step_inv hs hinv)

/-- C1: in the concurrent small-step model of `store_next_block`'s
persistence path (arbitrarily many in-flight calls interleaved with the
execution pipeline), starting from any state whose polled values are
consistent with the watermark: after any accepted trace the reached
state is again consistent, and whenever an insert step for block `n` is
enabled in it — i.e. some call's most recent poll of the last sealed
miniblock number returned a value `≥ n`, the only way the source's loop
reaches `insert_certificate` — the execution layer's last sealed block
number at that very moment is already `≥ n`, the insert changes nothing
but the certificate table, and so no certificate is ever persisted
before the execution data it attests to exists. -/
theorem cert_before_data (s0 : SysState) (h0 : Inv s0) (tr : List TraceEvent)
    (s1 : SysState) (h1 : run s0 tr = some s1) :
    Inv s1 ∧
    (∀ c n s2, step s1 (.insert c n) = some s2 →
        n ≤ s1.sealed ∧ s2.sealed = s1.sealed ∧
        s2.inserted = (c, n) :: s1.inserted) := by
  have hinv : Inv s1 := run_inv tr s0 s1 h1 h0
  refine ⟨hinv, fun c n s2 hs => ?_⟩
  rcases hl : s1.observed.lookup c with _ | v
  · simp only [step, hl] at hs
    exact Option.noConfusion hs
  · simp only [step, hl] at hs
    by_cases hn : n ≤ v
    · rw [if_pos hn] at hs
      injection hs with hs
      subst hs
      exact ⟨Nat.le_trans hn (lookup_le_of_inv hinv hl), rfl, rfl⟩
    · rw [if_neg hn] at hs; cases hs

/-- Witness for C1: a concrete interleaving of two calls — execution
seals up to 5, call 0 polls and inserts block 3, call 1 polls; in the
reached state an insert of block 4 by call 1 is enabled and the sealed
watermark is indeed `≥ 4`. -/
theorem cert_before_data_witness :
    Inv { sealed := 5, observed := [(1, 5), (0, 5)], inserted := [(0, 3)] } ∧
    (∀ c n s2,
        step { sealed := 5, observed := [(1, 5), (0, 5)], inserted := [(0, 3)] }
            (.insert c n) = some s2 →
        n ≤ (5 : Nat) ∧ s2.sealed = 5 ∧ s2.inserted = (c, n) :: [(0, 3)]) :=
  cert_before_data { sealed := 0, observed := [], inserted := [] } (by decide)
    [.sealTo 5, .poll 0, .insert 0 3, .poll 1]
    { sealed := 5, observed := [(1, 5), (0, 5)], inserted := [(0, 3)] } (by decide)

/-! ### C10: read operations do not modify shared state -/

/-- C10: the read-side operations — `PersistentBlockStore::state`,
`block`, and single-snapshot `propose` and `verify` — return the
relational log unchanged on every input, successful or failed; no
certificate, payload or replica-state row is touched and (as none of
them takes or returns the cursor) the fetcher cursor cannot advance. -/
theorem reads_preserve_log (l : Log) (n : Nat) (w : WirePayload) :
    (Store.state l).2 = l ∧ (Store.block l n).2 = l ∧
    (Store.propose_step l n).2 = l ∧ (Store.verify_step l n w).2 = l := by
  refine ⟨rfl, ?_, rfl, rfl⟩
  unfold Store.block
  rcases l.certificate n with _ | c
  · rfl
  · rcases l.payloadOf n with _ | p <;> rfl

end ConsensusStorage
